import Mathlib

/-!
# Verification of the Gmail expenses tracker's extraction/sync pipeline

A shallow embedding of the core pipeline of the Gmail-Expenses-Tracker
repository:

* `src/services/geminiService.ts` — `parseEmailContent` (text extraction),
* `src/services/gmailService.ts`  — `safeDecode`, `fetchMessages`,
* `src/App.tsx`                   — `handleGmailSync`, `handleManualParse`.

External effects (the Gemini model call, the Gmail HTTP calls) are modelled
as oracle inputs; the JavaScript runtime pieces the code relies on
(`JSON.parse`, `atob`, `TextDecoder`, object spread, `Array.filter`,
`Math.round`) are modelled as executable Lean functions following their
specified behaviour.  All state updates are explicit state passing.
-/

namespace GmailExpenses

/-! ## JSON values and a model of `JSON.parse`

`parseEmailContent` feeds the model's response text to `JSON.parse` and
accepts whatever comes back.  Numbers are kept as decimal
mantissa/exponent pairs (the code never computes with them). -/

inductive Json where
  | null : Json
  | bool (b : Bool) : Json
  | num (mantissa : Int) (exp10 : Int) : Json
  | str (s : String) : Json
  | arr (elems : List Json) : Json
  | obj (fields : List (String × Json)) : Json

/-- JSON whitespace accepted between tokens by `JSON.parse`. -/
def jsonWs (c : Char) : Bool :=
  c == ' ' || c == '\t' || c == '\n' || c == '\r'

def skipWs (cs : List Char) : List Char := cs.dropWhile jsonWs

def isDigitCh (c : Char) : Bool := '0' ≤ c && c ≤ '9'

def digitsToNat (ds : List Char) : Nat :=
  ds.foldl (fun a c => a * 10 + (c.toNat - 48)) 0

def hexVal (c : Char) : Option Nat :=
  if '0' ≤ c && c ≤ '9' then some (c.toNat - 48)
  else if 'a' ≤ c && c ≤ 'f' then some (c.toNat - 97 + 10)
  else if 'A' ≤ c && c ≤ 'F' then some (c.toNat - 65 + 10)
  else none

def escapeChar (c : Char) : Option Char :=
  if c = '"' then some '"'
  else if c = '\\' then some '\\'
  else if c = '/' then some '/'
  else if c = 'n' then some '\n'
  else if c = 't' then some '\t'
  else if c = 'r' then some '\r'
  else if c = 'b' then some (Char.ofNat 8)
  else if c = 'f' then some (Char.ofNat 12)
  else none

/-- Parse the characters of a JSON string literal, after the opening quote.
Returns the decoded characters and the remaining input. -/
def parseStrLit (fuel : Nat) (cs : List Char) : Option (List Char × List Char) :=
  match fuel with
  | 0 => none
  | f + 1 =>
    match cs with
    | [] => none
    | c :: rest =>
      if c = '"' then some ([], rest)
      else if c = '\\' then
        match rest with
        | [] => none
        | e :: rest2 =>
          if e = 'u' then
            match rest2 with
            | h1 :: h2 :: h3 :: h4 :: rest3 =>
              match hexVal h1, hexVal h2, hexVal h3, hexVal h4 with
              | some v1, some v2, some v3, some v4 =>
                let n := ((v1 * 16 + v2) * 16 + v3) * 16 + v4
                if n.isValidChar then
                  match parseStrLit f rest3 with
                  | some (s, r) => some (Char.ofNat n :: s, r)
                  | none => none
                else none
              | _, _, _, _ => none
            | _ => none
          else
            match escapeChar e with
            | some ec =>
              match parseStrLit f rest2 with
              | some (s, r) => some (ec :: s, r)
              | none => none
            | none => none
      else
        match parseStrLit f rest with
        | some (s, r) => some (c :: s, r)
        | none => none

/-- Parse a JSON number (decimal mantissa and power-of-ten exponent). -/
def parseNum (cs : List Char) : Option (Json × List Char) :=
  let (neg, cs1) := match cs with
    | '-' :: t => (true, t)
    | _ => (false, cs)
  let intDs := cs1.takeWhile isDigitCh
  let cs2 := cs1.drop intDs.length
  if intDs.isEmpty then none
  else
    let (fracDs, cs3) := match cs2 with
      | '.' :: t =>
        let ds := t.takeWhile isDigitCh
        (ds, t.drop ds.length)
      | _ => ([], cs2)
    if cs2 ≠ cs3 ∧ fracDs.isEmpty then none
    else
      let mant := digitsToNat (intDs ++ fracDs)
      let mantI : Int := if neg then - (mant : Int) else (mant : Int)
      let e0 : Int := - (fracDs.length : Int)
      match cs3 with
      | 'e' :: t => parseExp mantI e0 t
      | 'E' :: t => parseExp mantI e0 t
      | _ => some (Json.num mantI e0, cs3)
where
  parseExp (mantI : Int) (e0 : Int) (t : List Char) : Option (Json × List Char) :=
    let (eneg, t1) := match t with
      | '-' :: u => (true, u)
      | '+' :: u => (false, u)
      | _ => (false, t)
    let eDs := t1.takeWhile isDigitCh
    if eDs.isEmpty then none
    else
      let ev : Int := (digitsToNat eDs : Int)
      some (Json.num mantI (e0 + (if eneg then -ev else ev)), t1.drop eDs.length)

/-- Parsing modes of the defunctionalised recursive-descent JSON parser. -/
inductive PMode where
  | value : PMode
  | members : PMode
  | elements : PMode

inductive PRes where
  | val (j : Json) : PRes
  | mems (ms : List (String × Json)) : PRes
  | elems (es : List Json) : PRes

/-- One fueled recursive-descent parser covering values, object members and
array elements (fuel keeps the recursion structural). -/
def parseCore (fuel : Nat) (mode : PMode) (cs : List Char) : Option (PRes × List Char) :=
  match fuel with
  | 0 => none
  | f + 1 =>
    match mode with
    | PMode.value =>
      match skipWs cs with
      | [] => none
      | c :: rest =>
        if c = '{' then
          match skipWs rest with
          | '}' :: r => some (PRes.val (Json.obj []), r)
          | _ =>
            match parseCore f PMode.members rest with
            | some (PRes.mems ms, r) => some (PRes.val (Json.obj ms), r)
            | _ => none
        else if c = '[' then
          match skipWs rest with
          | ']' :: r => some (PRes.val (Json.arr []), r)
          | _ =>
            match parseCore f PMode.elements rest with
            | some (PRes.elems es, r) => some (PRes.val (Json.arr es), r)
            | _ => none
        else if c = '"' then
          match parseStrLit (rest.length + 1) rest with
          | some (s, r) => some (PRes.val (Json.str (String.mk s)), r)
          | none => none
        else if c = 't' then
          match rest with
          | 'r' :: 'u' :: 'e' :: r => some (PRes.val (Json.bool true), r)
          | _ => none
        else if c = 'f' then
          match rest with
          | 'a' :: 'l' :: 's' :: 'e' :: r => some (PRes.val (Json.bool false), r)
          | _ => none
        else if c = 'n' then
          match rest with
          | 'u' :: 'l' :: 'l' :: r => some (PRes.val Json.null, r)
          | _ => none
        else
          match parseNum (c :: rest) with
          | some (j, r) => some (PRes.val j, r)
          | none => none
    | PMode.members =>
      match skipWs cs with
      | '"' :: r =>
        match parseStrLit (r.length + 1) r with
        | some (k, r2) =>
          (match skipWs r2 with
          | ':' :: r3 =>
            match parseCore f PMode.value r3 with
            | some (PRes.val v, r4) =>
              (match skipWs r4 with
              | ',' :: r5 =>
                match parseCore f PMode.members r5 with
                | some (PRes.mems ms, r6) => some (PRes.mems ((String.mk k, v) :: ms), r6)
                | _ => none
              | '}' :: r5 => some (PRes.mems [(String.mk k, v)], r5)
              | _ => none)
            | _ => none
          | _ => none)
        | none => none
      | _ => none
    | PMode.elements =>
      match parseCore f PMode.value cs with
      | some (PRes.val v, r) =>
        (match skipWs r with
        | ',' :: r2 =>
          match parseCore f PMode.elements r2 with
          | some (PRes.elems es, r3) => some (PRes.elems (v :: es), r3)
          | _ => none
        | ']' :: r2 => some (PRes.elems [v], r2)
        | _ => none)
      | _ => none

/-- Model of `JSON.parse`: parse one value, demand only whitespace after it. -/
def Json.parse (s : String) : Option Json :=
  match parseCore (2 * s.data.length + 8) PMode.value s.data with
  | some (PRes.val j, rest) => if (skipWs rest).isEmpty then some j else none
  | _ => none

/-! ## Field access on parsed objects

The TypeScript `Transaction` type is erased at runtime; what
`parseEmailContent` actually returns is the parsed JSON value spread into a
fresh object together with a generated `id`.  We therefore model an accepted
"transaction" as its runtime shape: a list of named JSON fields. -/

/-- Runtime shape of a value returned by `parseEmailContent`. -/
abbrev TransObj := List (String × Json)

/-- Model of JavaScript object spread `{...parsed}` on a `JSON.parse`
result: objects contribute their fields, arrays and strings contribute
index-keyed fields, primitives contribute nothing. -/
def spreadFields : Json → TransObj
  | Json.obj fs => fs
  | Json.arr xs => (List.range xs.length).zip xs |>.map (fun p => (toString p.1, p.2))
  | Json.str s => (List.range s.data.length).zip s.data
      |>.map (fun p => (toString p.1, Json.str (String.mk [p.2])))
  | _ => []

/-- Model of `{...parsed, id}`: overwrite an existing `id` field in place,
otherwise append it. -/
def setIdField (fs : TransObj) (v : Json) : TransObj :=
  if fs.any (fun p => p.1 = "id") then
    fs.map (fun p => if p.1 = "id" then ("id", v) else p)
  else fs ++ [("id", v)]

/-- Last-wins field lookup (JavaScript object semantics for duplicate keys). -/
def getField : TransObj → String → Option Json
  | [], _ => none
  | (k, v) :: rest, name =>
    match getField rest name with
    | some v' => some v'
    | none => if k = name then some v else none

def getStrField (fs : TransObj) (name : String) : Option String :=
  match getField fs name with
  | some (Json.str s) => some s
  | _ => none

def hasField (fs : TransObj) (name : String) : Bool :=
  fs.any (fun p => p.1 = name)

/-- The fields the extraction schema marks `required`. -/
def requiredTransactionFields : List String :=
  ["amount", "merchant", "date", "category", "type", "description"]

/-- Does a runtime object carry every schema-required field? -/
def hasTransactionFields (fs : TransObj) : Bool :=
  requiredTransactionFields.all (fun n => hasField fs n)

/-- The nine-element closed category enumeration (`ExpenseCategory` in
`src/types.ts`). -/
def expenseCategories : List String :=
  ["Food & Dining", "Shopping", "Transport", "Utilities & Bills",
   "Entertainment", "Health", "Travel", "Other", "Income"]

/-! ## Text Extraction Service (`src/services/geminiService.ts`) -/

/-- JavaScript `String.prototype.trim` whitespace (the characters that can
occur in practice; applied only to model-response and pasted text). -/
def jsTrimWs (c : Char) : Bool :=
  c == ' ' || c == '\t' || c == '\n' || c == '\r' || c == '\x0b' || c == '\x0c'

/-- Model of `String.prototype.trim`. -/
def trimS (s : String) : String :=
  String.mk ((((s.data.dropWhile jsTrimWs).reverse).dropWhile jsTrimWs).reverse)

/-- Outcome of the `ai.models.generateContent` call, as `parseEmailContent`
observes it: the call either throws (provider/network error) or yields a
response whose `text` property may be absent. -/
inductive GenResult where
  | fail : GenResult
  | ok (text : Option String) : GenResult

/-- Shallow embedding of `parseEmailContent`
(`src/services/geminiService.ts:38-64`): on a thrown provider/network error
return `null`; on an empty/missing response text return `null`; if
`JSON.parse` of the trimmed text throws return `null`; otherwise return
`{...parsed, id: freshId}`.  The generated random `id` is the `freshId`
parameter. -/
def parseEmailContentModel (freshId : String) (res : GenResult) : Option TransObj :=
  match res with
  | GenResult.fail => none
  | GenResult.ok none => none
  | GenResult.ok (some txt) =>
    let jsonStr := trimS txt
    if jsonStr = "" then none
    else
      match Json.parse jsonStr with
      | none => none
      | some parsed => some (setIdField (spreadFields parsed) (Json.str freshId))

/-- Shallow embedding of `handleManualParse` (`src/App.tsx:91-103`) restricted
to its ledger effect: an empty pasted text is rejected up front; a `null`
extraction leaves the transactions list unchanged; a successful extraction is
prepended. -/
def handleManualParse (emailInput freshId : String) (res : GenResult)
    (transactions : List TransObj) : List TransObj :=
  if trimS emailInput = "" then transactions
  else
    match parseEmailContentModel freshId res with
    | some t => t :: transactions
    | none => transactions

/-! ## Base64 (`atob`) and URL-safe substitutions
(`src/services/gmailService.ts:58-72`)

`safeDecode` first reverses the URL-safe substitutions, then calls the
platform `atob` (forgiving-base64 decode), reads the returned binary string
into a byte array, and decodes it with `TextDecoder` (UTF-8, replacement on
error).  Any exception — only `atob` can throw — falls back to returning the
input unchanged. -/

/-- Character of the standard base64 alphabet for a sextet. -/
def sextetChar (k : Nat) : Char :=
  if k < 26 then Char.ofNat (65 + k)
  else if k < 52 then Char.ofNat (97 + (k - 26))
  else if k < 62 then Char.ofNat (48 + (k - 52))
  else if k = 62 then '+' else '/'

/-- Index of a character in the standard base64 alphabet. -/
def b64Index (c : Char) : Option Nat :=
  if 'A' ≤ c ∧ c ≤ 'Z' then some (c.toNat - 65)
  else if 'a' ≤ c ∧ c ≤ 'z' then some (c.toNat - 97 + 26)
  else if '0' ≤ c ∧ c ≤ '9' then some (c.toNat - 48 + 52)
  else if c = '+' then some 62
  else if c = '/' then some 63
  else none

/-- Standard (unpadded) base64 encoding of a byte sequence — the reference
encoder the round-trip property is stated against. -/
def b64EncodeStd : List Nat → List Char
  | [] => []
  | [a] => [sextetChar (a / 4), sextetChar ((a % 4) * 16)]
  | [a, b] => [sextetChar (a / 4), sextetChar ((a % 4) * 16 + b / 16),
               sextetChar ((b % 16) * 4)]
  | a :: b :: c :: rest =>
      sextetChar (a / 4) :: sextetChar ((a % 4) * 16 + b / 16) ::
      sextetChar ((b % 16) * 4 + c / 64) :: sextetChar (c % 64) ::
      b64EncodeStd rest

/-- `+`→`-`, `/`→`_`: the provider's URL-safe alphabet. -/
def stdToUrl (c : Char) : Char :=
  if c = '+' then '-' else if c = '/' then '_' else c

/-- URL-safe unpadded base64 encoding (what Gmail transmits). -/
def b64UrlEncode (bytes : List Nat) : List Char :=
  (b64EncodeStd bytes).map stdToUrl

/-- The global replacements `-`→`+` and `_`→`/` done by `safeDecode`. -/
def urlToStd (c : Char) : Char :=
  if c = '-' then '+' else if c = '_' then '/' else c

/-- ASCII whitespace stripped by forgiving-base64 (`atob`). -/
def isB64Ws (c : Char) : Bool :=
  c == ' ' || c == '\t' || c == '\n' || c == '\x0c' || c == '\r'

/-- Forgiving-base64 padding removal: when the length is a multiple of four,
drop one or two trailing `=`. -/
def stripPad (l : List Char) : List Char :=
  if l.length % 4 = 0 then
    match l.reverse with
    | '=' :: '=' :: r => r.reverse
    | '=' :: r => r.reverse
    | _ => l
  else l

/-- Chunkwise base64 decoding (trailing chunks of two or three characters
contribute one or two bytes; extra bits are discarded). -/
def atobChunks : List Char → Option (List Nat)
  | [] => some []
  | c1 :: c2 :: c3 :: c4 :: rest =>
    (match b64Index c1, b64Index c2, b64Index c3, b64Index c4, atobChunks rest with
    | some i1, some i2, some i3, some i4, some bs =>
        some ((i1 * 4 + i2 / 16) :: ((i2 % 16) * 16 + i3 / 4) ::
              ((i3 % 4) * 64 + i4) :: bs)
    | _, _, _, _, _ => none)
  | [c1, c2] =>
    (match b64Index c1, b64Index c2 with
    | some i1, some i2 => some [i1 * 4 + i2 / 16]
    | _, _ => none)
  | [c1, c2, c3] =>
    (match b64Index c1, b64Index c2, b64Index c3 with
    | some i1, some i2, some i3 =>
        some [i1 * 4 + i2 / 16, (i2 % 16) * 16 + i3 / 4]
    | _, _, _ => none)
  | [_] => none

/-- Model of the platform `atob` (WHATWG forgiving-base64 decode): strip
ASCII whitespace, strip permitted `=` padding, reject a leftover length of
1 mod 4 and any character outside the alphabet, decode the rest.  `none`
models the `InvalidCharacterError` caught by `safeDecode`. -/
def atobModel (s : List Char) : Option (List Nat) :=
  let t := s.filter (fun c => !(isB64Ws c))
  let t := stripPad t
  if t.length % 4 = 1 then none else atobChunks t

/-! ## UTF-8 (`TextDecoder`) -/

/-- UTF-8 encoding of one scalar value. -/
def utf8EncodeChar (c : Char) : List Nat :=
  let n := c.toNat
  if n < 0x80 then [n]
  else if n < 0x800 then [0xC0 + n / 64, 0x80 + n % 64]
  else if n < 0x10000 then
    [0xE0 + n / 4096, 0x80 + (n / 64) % 64, 0x80 + n % 64]
  else
    [0xF0 + n / 262144, 0x80 + (n / 4096) % 64, 0x80 + (n / 64) % 64,
     0x80 + n % 64]

def utf8Encode : List Char → List Nat
  | [] => []
  | c :: cs => utf8EncodeChar c ++ utf8Encode cs

/-- U+FFFD, emitted by a non-fatal `TextDecoder` on malformed input. -/
def replChar : Char := Char.ofNat 0xFFFD

/-- Allowed range of the first continuation byte after a three-byte lead. -/
def cont2lo (b : Nat) : Nat := if b = 0xE0 then 0xA0 else 0x80

def cont2hi (b : Nat) : Nat := if b = 0xED then 0x9F else 0xBF

/-- Allowed range of the first continuation byte after a four-byte lead. -/
def cont3lo (b : Nat) : Nat := if b = 0xF0 then 0x90 else 0x80

def cont3hi (b : Nat) : Nat := if b = 0xF4 then 0x8F else 0xBF

/-- One step of the UTF-8 decoder: given the current byte and the bytes
after it, the scalar decoded (or U+FFFD) and how many continuation bytes
were consumed. -/
def utf8Step (b : Nat) (bs : List Nat) : Char × Nat :=
  if b < 0x80 then (Char.ofNat b, 0)
  else if 0xC2 ≤ b ∧ b ≤ 0xDF then
    match bs with
    | b2 :: _ =>
      if 0x80 ≤ b2 ∧ b2 ≤ 0xBF then
        (Char.ofNat ((b - 0xC0) * 64 + (b2 - 0x80)), 1)
      else (replChar, 0)
    | [] => (replChar, 0)
  else if 0xE0 ≤ b ∧ b ≤ 0xEF then
    match bs with
    | b2 :: b3 :: _ =>
      if (cont2lo b ≤ b2 ∧ b2 ≤ cont2hi b) ∧ (0x80 ≤ b3 ∧ b3 ≤ 0xBF) then
        (Char.ofNat ((b - 0xE0) * 4096 + (b2 - 0x80) * 64 + (b3 - 0x80)), 2)
      else (replChar, 0)
    | _ => (replChar, bs.length)
  else if 0xF0 ≤ b ∧ b ≤ 0xF4 then
    match bs with
    | b2 :: b3 :: b4 :: _ =>
      if (cont3lo b ≤ b2 ∧ b2 ≤ cont3hi b) ∧ (0x80 ≤ b3 ∧ b3 ≤ 0xBF) ∧
         (0x80 ≤ b4 ∧ b4 ≤ 0xBF) then
        (Char.ofNat ((b - 0xF0) * 262144 + (b2 - 0x80) * 4096 +
                     (b3 - 0x80) * 64 + (b4 - 0x80)), 3)
      else (replChar, 0)
    | _ => (replChar, bs.length)
  else (replChar, 0)

/-- Model of `new TextDecoder().decode` (UTF-8, non-fatal): a total decoder
that emits U+FFFD on malformed sequences and never fails. -/
def utf8DecodeReplace : List Nat → List Char
  | [] => []
  | b :: bs =>
    (utf8Step b bs).1 :: utf8DecodeReplace (bs.drop (utf8Step b bs).2)
termination_by l => l.length
decreasing_by
  simp only [List.length_cons, List.length_drop]
  omega

/-! ## `safeDecode` (`src/services/gmailService.ts:58-72`) -/

/-- Shallow embedding of `GmailService.safeDecode` on character lists:
reverse the URL-safe substitutions, `atob`, read the binary string as bytes,
decode as UTF-8; on any exception return the input unchanged. -/
def safeDecodeL (cs : List Char) : List Char :=
  match atobModel (cs.map urlToStd) with
  | none => cs
  | some bytes => utf8DecodeReplace bytes

/-- `safeDecode` on strings. -/
def safeDecodeS (s : String) : String :=
  String.mk (safeDecodeL s.data)

/-! ## Mailbox client: `fetchMessages` (`src/services/gmailService.ts:74-121`) -/

/-- The `GmailMessage` interface. -/
structure GmailMessage where
  id : String
  snippet : String
  body : String
deriving DecidableEq

/-- Shape of a message-detail `payload`: an optional `body.data` (URL-safe
base64) and a list of sub-parts.  A missing `parts` property and an empty
array behave identically in the code, so both are the empty list. -/
inductive Payload where
  | mk (bodyData : Option String) (parts : List Payload) : Payload

mutual

/-- The recursive `extractBody` helper inside `fetchMessages`: prefer a
non-empty `body.data` (decoded), otherwise the first sub-part that yields a
non-empty body, otherwise the empty string.  (A falsy — empty — `data`
string falls through to the parts, as in the source.) -/
def extractBody : Payload → String
  | Payload.mk bodyData parts =>
    match bodyData with
    | some data => if data = "" then extractBodyFromParts parts else safeDecodeS data
    | none => extractBodyFromParts parts

/-- First sub-part with a non-empty extracted body. -/
def extractBodyFromParts : List Payload → String
  | [] => ""
  | p :: ps =>
    let b := extractBody p
    if b = "" then extractBodyFromParts ps else b

end

/-- Outcome of one per-message detail fetch, as the `try` block observes it:
either some step threw (fetch rejection, JSON failure, missing payload), or
a snippet and payload were obtained. -/
inductive DetailResult where
  | fail : DetailResult
  | ok (snippet : String) (payload : Payload) : DetailResult

def detailFails : DetailResult → Bool
  | DetailResult.fail => true
  | DetailResult.ok _ _ => false

/-- One iteration of the detail-fetch map in `fetchMessages`: a thrown error
yields `null` (dropped later); otherwise the message is built with the
listed id, the snippet, and `foundBody || snippet`. -/
def fetchDetailModel (detail : String → DetailResult) (msgId : String) :
    Option GmailMessage :=
  match detail msgId with
  | DetailResult.fail => none
  | DetailResult.ok snippet payload =>
    let foundBody := extractBody payload
    some { id := msgId, snippet := snippet,
           body := if foundBody = "" then snippet else foundBody }

/-- The detail stage of `fetchMessages`: fetch every listed id's detail
(the `detail` oracle models the network), then filter out the `null`s. -/
def fetchMessagesModel (detail : String → DetailResult) (ids : List String) :
    List GmailMessage :=
  ids.filterMap (fetchDetailModel detail)

/-! ## Synchronization orchestrator (`src/App.tsx:105-145`) -/

/-- The ledger state: the `transactions` and `syncedIds` React states,
mirrored to local storage.  The transaction type is a parameter — the sync
loop never inspects the extracted records. -/
structure SyncState (τ : Type) where
  transactions : List τ
  syncedIds : List String

/-- `Math.round(((i + 1) / total) * 100)` on natural inputs:
round-half-up of `k * 100 / total`. -/
def jsRoundPct (k total : Nat) : Nat :=
  (200 * k + total) / (2 * total)

/-- `msg.body || msg.snippet` — fall back to the snippet when the decoded
body is empty. -/
def bodyOrSnippet (m : GmailMessage) : String :=
  if m.body = "" then m.snippet else m.body

/-- What one run of the extraction loop accumulates and reports. -/
structure LoopOut (τ : Type) where
  results : List τ
  successfulIds : List String
  progressReports : List Nat
  attempted : List String

/-- The sequential extraction loop of `handleGmailSync`: for the `i`-th of
`total` new messages, report progress `Math.round((i+1)/total*100)`, call
the extraction service on `body || snippet`, and on success accumulate the
transaction and the message id.  A failed extraction accumulates nothing. -/
def syncLoop {τ : Type} (ext : String → Option τ) (total : Nat) :
    Nat → List GmailMessage → LoopOut τ
  | _, [] => ⟨[], [], [], []⟩
  | i, m :: rest =>
    let tail := syncLoop ext total (i + 1) rest
    match ext (bodyOrSnippet m) with
    | some t =>
        ⟨t :: tail.results, m.id :: tail.successfulIds,
         jsRoundPct (i + 1) total :: tail.progressReports, m.id :: tail.attempted⟩
    | none =>
        ⟨tail.results, tail.successfulIds,
         jsRoundPct (i + 1) total :: tail.progressReports, m.id :: tail.attempted⟩

/-- Outcome of `gmailService.fetchMessages()` as `handleGmailSync` observes
it: either the listing threw, or it produced a message list. -/
inductive ListResult where
  | err : ListResult
  | ok (messages : List GmailMessage) : ListResult

/-- Result of one `handleGmailSync` call: the ledger state afterwards, the
progress values reported by the loop, and the ids extraction was attempted
for, in order. -/
structure SyncOutcome (τ : Type) where
  state : SyncState τ
  progressReports : List Nat
  attempted : List String

/-- The candidate filter: `messages.filter(m => !syncedIds.includes(m.id))`. -/
def candidates {τ : Type} (st : SyncState τ) (messages : List GmailMessage) :
    List GmailMessage :=
  messages.filter (fun m => !(st.syncedIds.contains m.id))

/-- Shallow embedding of the authenticated body of `handleGmailSync`
(`src/App.tsx:113-144`): if the listing throws, the catch block leaves the
ledger untouched; otherwise filter out already-synced ids, return early if
nothing is new, run the sequential extraction loop, and merge results and
successful ids by prepending — only when at least one extraction
succeeded. -/
def handleGmailSyncModel {τ : Type} (ext : String → Option τ)
    (listing : ListResult) (st : SyncState τ) : SyncOutcome τ :=
  match listing with
  | ListResult.err => ⟨st, [], []⟩
  | ListResult.ok messages =>
    let newMessages := candidates st messages
    if newMessages.isEmpty then ⟨st, [], []⟩
    else
      let out := syncLoop ext newMessages.length 0 newMessages
      if out.results.isEmpty then ⟨st, out.progressReports, out.attempted⟩
      else
        ⟨⟨out.results ++ st.transactions, out.successfulIds ++ st.syncedIds⟩,
         out.progressReports, out.attempted⟩

/-- The two ways the entry of `handleGmailSync` (`src/App.tsx:105-112`) can
proceed: without a token it requests one and returns; with a token it enters
the sync body. -/
inductive SyncEntry where
  | requestToken : SyncEntry
  | runSync : SyncEntry
deriving DecidableEq

/-- The entry guard of `handleGmailSync`: the only condition checked before
entering the sync body is `!gmailToken`.  The `isSyncing` flag is passed in
to express (and refute) the claimed non-reentrancy check — the source never
reads it here. -/
def syncEntry (gmailToken : Option String) (isSyncing : Bool) : SyncEntry :=
  match gmailToken with
  | none => SyncEntry.requestToken
  | some _ => SyncEntry.runSync

/-! ## Helper lemmas about the sync loop -/

theorem syncLoop_attempted {τ : Type} (ext : String → Option τ) (total : Nat) :
    ∀ (i : Nat) (ms : List GmailMessage),
      (syncLoop ext total i ms).attempted = ms.map GmailMessage.id := by
  intro i ms
  induction ms generalizing i with
  | nil => rfl
  | cons m rest ih =>
    simp only [syncLoop, List.map_cons]
    cases ext (bodyOrSnippet m) <;> simp [ih]

theorem syncLoop_results {τ : Type} (ext : String → Option τ) (total : Nat) :
    ∀ (i : Nat) (ms : List GmailMessage),
      (syncLoop ext total i ms).results =
        ms.filterMap (fun m => ext (bodyOrSnippet m)) := by
  intro i ms
  induction ms generalizing i with
  | nil => rfl
  | cons m rest ih =>
    simp only [syncLoop, List.filterMap_cons]
    cases h : ext (bodyOrSnippet m) <;> simp [h, ih]

theorem syncLoop_successfulIds {τ : Type} (ext : String → Option τ) (total : Nat) :
    ∀ (i : Nat) (ms : List GmailMessage),
      (syncLoop ext total i ms).successfulIds =
        (ms.filter (fun m => (ext (bodyOrSnippet m)).isSome)).map GmailMessage.id := by
  intro i ms
  induction ms generalizing i with
  | nil => rfl
  | cons m rest ih =>
    simp only [syncLoop, List.filter_cons]
    cases h : ext (bodyOrSnippet m) <;> simp [h, ih]

theorem mem_candidates {τ : Type} (st : SyncState τ) (messages : List GmailMessage)
    (m : GmailMessage) :
    m ∈ candidates st messages ↔ m ∈ messages ∧ m.id ∉ st.syncedIds := by
  simp [candidates, List.mem_filter, List.elem_iff]

/-- If every candidate's extraction fails, a sync leaves the state alone. -/
theorem sync_state_fixed_of_all_fail {τ : Type} (ext : String → Option τ)
    (st : SyncState τ) (messages : List GmailMessage)
    (hall : ∀ m ∈ candidates st messages, ext (bodyOrSnippet m) = none) :
    (handleGmailSyncModel ext (ListResult.ok messages) st).state = st := by
  simp only [handleGmailSyncModel]
  by_cases hE : (candidates st messages).isEmpty
  · simp [hE]
  · have hres : (syncLoop ext (candidates st messages).length 0
        (candidates st messages)).results = [] := by
      rw [syncLoop_results]
      exact List.filterMap_eq_nil_iff.mpr hall
    simp [hE, hres]

/-! ## Claim theorems -/

/-- C1: in any sync run, a candidate message whose extraction fails is not
added to `processedMessageIds` (`syncedIds`), the loop still attempts every
candidate (the sync is not aborted), and a later sync over the same listing
presents the message as a candidate again. -/
theorem extraction_failure_not_marked_processed {τ : Type}
    (ext : String → Option τ) (st : SyncState τ)
    (messages : List GmailMessage) (msg : GmailMessage)
    (hnodup : (messages.map GmailMessage.id).Nodup)
    (hmem : msg ∈ messages)
    (hnew : msg.id ∉ st.syncedIds)
    (hfail : ext (bodyOrSnippet msg) = none) :
    msg.id ∉ (handleGmailSyncModel ext (ListResult.ok messages) st).state.syncedIds ∧
    (handleGmailSyncModel ext (ListResult.ok messages) st).attempted =
      (candidates st messages).map GmailMessage.id ∧
    msg ∈ candidates (handleGmailSyncModel ext (ListResult.ok messages) st).state
      messages := by
  have hcand : msg ∈ candidates st messages := (mem_candidates st messages msg).mpr ⟨hmem, hnew⟩
  have hne : ¬(candidates st messages).isEmpty := by
    intro h
    rw [List.isEmpty_iff] at h
    rw [h] at hcand
    exact (List.not_mem_nil msg) hcand
  have hnotsucc : msg.id ∉ (syncLoop ext (candidates st messages).length 0
      (candidates st messages)).successfulIds := by
    rw [syncLoop_successfulIds]
    intro hin
    rcases List.mem_map.mp hin with ⟨m', hm', heq⟩
    rcases List.mem_filter.mp hm' with ⟨hm'mem, hm'some⟩
    have hm'msgs : m' ∈ messages := ((mem_candidates st messages m').mp hm'mem).1
    have : m' = msg := List.inj_on_of_nodup_map hnodup hm'msgs hmem heq
    rw [this, hfail] at hm'some
    simp at hm'some
  have hstate : msg.id ∉ (handleGmailSyncModel ext (ListResult.ok messages)
      st).state.syncedIds := by
    simp only [handleGmailSyncModel, hne]
    by_cases hres : (syncLoop ext (candidates st messages).length 0
        (candidates st messages)).results.isEmpty
    · simp [hres, hne, hnew]
    · simp only [hres, hne, Bool.false_eq_true, if_false, List.mem_append]
      intro h
      rcases h with h | h
      · exact hnotsucc h
      · exact hnew h
  refine ⟨hstate, ?_, ?_⟩
  · simp only [handleGmailSyncModel, hne]
    by_cases hres : (syncLoop ext (candidates st messages).length 0
        (candidates st messages)).results.isEmpty <;>
      simp [hres, hne, syncLoop_attempted]
  · exact (mem_candidates _ messages msg).mpr ⟨hmem, hstate⟩

/-- Witness for C1 at a concrete instance: one unprocessed message whose
extraction fails. -/
theorem extraction_failure_not_marked_processed_witness :
    let msg : GmailMessage := ⟨"m1", "s1", "b1"⟩
    let st : SyncState Nat := ⟨[], []⟩
    msg.id ∉ (handleGmailSyncModel (fun _ => (none : Option Nat))
      (ListResult.ok [msg]) st).state.syncedIds ∧
    (handleGmailSyncModel (fun _ => (none : Option Nat))
      (ListResult.ok [msg]) st).attempted =
      (candidates st [msg]).map GmailMessage.id ∧
    msg ∈ candidates (handleGmailSyncModel (fun _ => (none : Option Nat))
      (ListResult.ok [msg]) st).state [msg] :=
  extraction_failure_not_marked_processed (fun _ => none) ⟨[], []⟩
    [⟨"m1", "s1", "b1"⟩] ⟨"m1", "s1", "b1"⟩ (by decide) (by decide) (by decide) rfl

/-- C2: when the listing call fails, the catch block performs no merge — the
ledger state after the sync call is exactly the state before it. -/
theorem listing_failure_leaves_state_unchanged {τ : Type}
    (ext : String → Option τ) (st : SyncState τ) :
    handleGmailSyncModel ext ListResult.err st = ⟨st, [], []⟩ := rfl

/-- C3: a second sync over the same provider message list changes nothing:
every message either was marked processed by the first sync or fails
extraction again, so the merge guard fires and both `transactions` and
`syncedIds` are left exactly as the first sync left them. -/
theorem second_sync_adds_nothing {τ : Type} (ext : String → Option τ)
    (st : SyncState τ) (messages : List GmailMessage) :
    (handleGmailSyncModel ext (ListResult.ok messages)
      (handleGmailSyncModel ext (ListResult.ok messages) st).state).state =
    (handleGmailSyncModel ext (ListResult.ok messages) st).state := by
  apply sync_state_fixed_of_all_fail
  intro m hm
  rcases (mem_candidates _ messages m).mp hm with ⟨hmmem, hmid⟩
  by_contra hsome
  replace hsome : (ext (bodyOrSnippet m)).isSome := Option.ne_none_iff_isSome.mp hsome
  -- characterise the first sync's resulting id set
  simp only [handleGmailSyncModel] at hmid
  by_cases hE : (candidates st messages).isEmpty
  · -- first sync was a no-op, so `m` was already a failing candidate —
    -- but then the candidate list was not empty
    simp only [hE, if_true] at hmid
    have : m ∈ candidates st messages := (mem_candidates st messages m).mpr ⟨hmmem, hmid⟩
    rw [List.isEmpty_iff] at hE
    rw [hE] at this
    exact (List.not_mem_nil m) this
  · have hmcand : m ∈ candidates st messages := by
      refine (mem_candidates st messages m).mpr ⟨hmmem, ?_⟩
      intro hin
      by_cases hres : (syncLoop ext (candidates st messages).length 0
          (candidates st messages)).results.isEmpty <;>
        simp [hE, hres, hin] at hmid
    have hinsucc : m.id ∈ (syncLoop ext (candidates st messages).length 0
        (candidates st messages)).successfulIds := by
      rw [syncLoop_successfulIds]
      exact List.mem_map_of_mem GmailMessage.id
        (List.mem_filter.mpr ⟨hmcand, hsome⟩)
    have hres : ¬(syncLoop ext (candidates st messages).length 0
        (candidates st messages)).results.isEmpty := by
      intro habs
      rw [List.isEmpty_iff, syncLoop_results, List.filterMap_eq_nil_iff] at habs
      have := habs m hmcand
      rw [this] at hsome
      simp at hsome
    simp [hE, hres, hinsucc] at hmid

/-- C6 counterexample: with a token present and a sync already in progress
(`isSyncing = true`), a second sync request still enters the sync body —
`handleGmailSync` has no check of the syncing flag before entry. -/
theorem sync_entry_ignores_flag_counterexample :
    syncEntry (some "token") true = SyncEntry.runSync := rfl

/-- C6 (amended): the entry guard of `handleGmailSync` depends only on the
token: the decision is identical whatever the value of the syncing flag,
with a token it enters the sync body, and without one it requests a token.
Non-reentrancy is therefore not enforced by a flag check before entry. -/
theorem sync_entry_checks_only_token (tok : Option String) (t : String)
    (b1 b2 : Bool) :
    syncEntry tok b1 = syncEntry tok b2 ∧
    syncEntry (some t) b1 = SyncEntry.runSync ∧
    syncEntry none b1 = SyncEntry.requestToken := by
  refine ⟨?_, rfl, rfl⟩
  cases tok <;> rfl

/-- C8: with a listing `[m1, m2, m3]` where `m2` is already processed, a
sync attempts extraction exactly for `m1` then `m3` and reports progress
50 then 100. -/
theorem three_message_scenario {τ : Type} (ext : String → Option τ)
    (ts : List τ) :
    (handleGmailSyncModel ext (ListResult.ok
        [⟨"m1", "s1", "b1"⟩, ⟨"m2", "s2", "b2"⟩, ⟨"m3", "s3", "b3"⟩])
      ⟨ts, ["m2"]⟩).attempted = ["m1", "m3"] ∧
    (handleGmailSyncModel ext (ListResult.ok
        [⟨"m1", "s1", "b1"⟩, ⟨"m2", "s2", "b2"⟩, ⟨"m3", "s3", "b3"⟩])
      ⟨ts, ["m2"]⟩).progressReports = [50, 100] := by
  have hc : candidates (⟨ts, ["m2"]⟩ : SyncState τ)
      [⟨"m1", "s1", "b1"⟩, ⟨"m2", "s2", "b2"⟩, ⟨"m3", "s3", "b3"⟩] =
      [⟨"m1", "s1", "b1"⟩, ⟨"m3", "s3", "b3"⟩] := rfl
  constructor
  · simp only [handleGmailSyncModel, hc]
    by_cases hres : (syncLoop ext 2 0
        [⟨"m1", "s1", "b1"⟩, ⟨"m3", "s3", "b3"⟩]).results.isEmpty <;>
      simp [hres, syncLoop_attempted]
  · simp only [handleGmailSyncModel, hc]
    have hprog : (syncLoop ext 2 0
        [⟨"m1", "s1", "b1"⟩, ⟨"m3", "s3", "b3"⟩]).progressReports = [50, 100] := by
      simp only [syncLoop]
      cases ext (bodyOrSnippet ⟨"m1", "s1", "b1"⟩) <;>
        cases ext (bodyOrSnippet ⟨"m3", "s3", "b3"⟩) <;> rfl
    by_cases hres : (syncLoop ext 2 0
        [⟨"m1", "s1", "b1"⟩, ⟨"m3", "s3", "b3"⟩]).results.isEmpty <;>
      simp [hres, hprog]

/-- C9: in the detail stage of `fetchMessages`, a failed per-message detail
fetch drops exactly that message: the ids of the returned messages are the
listed ids whose detail fetch succeeded, in order, each preserved. -/
theorem detail_failure_drops_only_that_message
    (detail : String → DetailResult) (ids : List String) :
    (fetchMessagesModel detail ids).map GmailMessage.id =
      ids.filter (fun i => !(detailFails (detail i))) := by
  induction ids with
  | nil => rfl
  | cons i rest ih =>
    simp only [fetchMessagesModel, List.filterMap_cons, List.filter_cons] at *
    cases h : detail i with
    | fail => simp [fetchDetailModel, h, detailFails, ih]
    | ok snippet payload => simp [fetchDetailModel, h, detailFails, ih]

/-- C10: `safeDecode` is total with an identity fallback: when the
(substitution-corrected) input is not acceptable to `atob` the input string
is returned unchanged, and otherwise the result is the non-fatal UTF-8
decoding of the decoded bytes (which never raises). -/
theorem safe_decode_total_fallback (s : String) :
    (atobModel (s.data.map urlToStd) = none → safeDecodeS s = s) ∧
    (∀ bytes, atobModel (s.data.map urlToStd) = some bytes →
      safeDecodeS s = String.mk (utf8DecodeReplace bytes)) := by
  constructor
  · intro h
    simp only [safeDecodeS, safeDecodeL, h]
  · intro bytes h
    simp only [safeDecodeS, safeDecodeL, h]

/-- Witness for C10 at a concrete malformed payload: `!` is not a base64
character, so `safeDecode` returns the input unchanged. -/
theorem safe_decode_total_fallback_witness : safeDecodeS "!" = "!" :=
  (safe_decode_total_fallback "!").1 (by decide)

/-! ## Field-preservation lemmas for `setIdField` -/

theorem getField_cons (p : String × Json) (rest : TransObj) (name : String) :
    getField (p :: rest) name =
      match getField rest name with
      | some v' => some v'
      | none => if p.1 = name then some p.2 else none := by
  rcases p with ⟨k, w⟩
  rfl

theorem getField_setIdField (fs : TransObj) (v : Json) (name : String)
    (h : name ≠ "id") : getField (setIdField fs v) name = getField fs name := by
  have hid : ¬("id" : String) = name := fun habs => h habs.symm
  have hmain : ∀ gs : TransObj,
      getField (gs.map (fun p => if p.1 = "id" then ("id", v) else p)) name =
        getField gs name := by
    intro gs
    induction gs with
    | nil => rfl
    | cons p rest ih =>
      rcases p with ⟨k, w⟩
      simp only [List.map_cons, getField_cons, ih]
      cases getField rest name with
      | some w' => rfl
      | none =>
        by_cases hk : k = "id"
        · subst hk
          simp [hid]
        · simp [hk]
  have happ : getField (fs ++ [("id", v)]) name = getField fs name := by
    induction fs with
    | nil =>
      simp only [List.nil_append, getField]
      rw [if_neg hid]
    | cons p rest ih =>
      rw [List.cons_append, getField_cons, getField_cons, ih]
  unfold setIdField
  split
  · exact hmain fs
  · exact happ

theorem hasField_setIdField (fs : TransObj) (v : Json) (name : String)
    (h : name ≠ "id") : hasField (setIdField fs v) name = hasField fs name := by
  have hid : ¬("id" : String) = name := fun habs => h habs.symm
  have hmain : ∀ gs : TransObj,
      hasField (gs.map (fun p => if p.1 = "id" then ("id", v) else p)) name =
        hasField gs name := by
    intro gs
    induction gs with
    | nil => rfl
    | cons p rest ih =>
      rcases p with ⟨k, w⟩
      simp only [List.map_cons, hasField, List.any_cons] at *
      rw [ih]
      by_cases hk : k = "id"
      · subst hk
        simp [hid]
      · simp [hk]
  have happ : hasField (fs ++ [("id", v)]) name = hasField fs name := by
    simp only [hasField, List.any_append, List.any_cons, List.any_nil]
    rw [decide_eq_false hid]
    simp
  unfold setIdField
  split
  · exact hmain fs
  · exact happ

theorem hasTransactionFields_setIdField (fs : TransObj) (v : Json) :
    hasTransactionFields (setIdField fs v) = hasTransactionFields fs := by
  simp only [hasTransactionFields, requiredTransactionFields, List.all_cons,
    List.all_nil]
  rw [hasField_setIdField fs v "amount" (by decide),
    hasField_setIdField fs v "merchant" (by decide),
    hasField_setIdField fs v "date" (by decide),
    hasField_setIdField fs v "category" (by decide),
    hasField_setIdField fs v "type" (by decide),
    hasField_setIdField fs v "description" (by decide)]

/-! ## C4 and C5 -/

/-- C4 counterexample: a well-formed model response whose category is the
string `Groceries` — not a member of the closed enumeration — is accepted
unvalidated into the ledger by the manual-paste path. -/
theorem category_not_validated_counterexample :
    ((handleManualParse "HDFC alert text" "id1"
        (GenResult.ok (some "\x7b\"amount\":120.5,\"merchant\":\"BigBasket\",\"date\":\"2024-05-01\",\"category\":\"Groceries\",\"type\":\"DEBIT\",\"description\":\"veg\"\x7d"))
        []).map (fun t => getStrField t "category")) = [some "Groceries"] ∧
    "Groceries" ∉ expenseCategories := by
  constructor
  · rfl
  · decide

/-- C4 (amended): the code performs no category validation — an accepted
transaction's `category` field is exactly the `category` field of the
parsed model response, so membership in the nine-element enumeration holds
exactly when the model's response category lies in it. -/
theorem category_passed_through_unvalidated (freshId txt : String) (j : Json)
    (fields : TransObj)
    (hp : Json.parse (trimS txt) = some j)
    (hr : parseEmailContentModel freshId (GenResult.ok (some txt)) = some fields) :
    getField fields "category" = getField (spreadFields j) "category" := by
  unfold parseEmailContentModel at hr
  by_cases he : trimS txt = ""
  · simp [he] at hr
  · simp only [he, if_neg, if_false] at hr
    rw [hp] at hr
    have : fields = setIdField (spreadFields j) (Json.str freshId) :=
      (Option.some.injEq _ _).mp hr.symm
    rw [this]
    exact getField_setIdField _ _ "category" (by decide)

/-- Witness for C4 (amended) at a concrete response whose category is in
the enumeration. -/
theorem category_passed_through_unvalidated_witness :
    getField [("category", Json.str "Food & Dining"), ("id", Json.str "fid")]
      "category" =
    getField (spreadFields (Json.obj [("category", Json.str "Food & Dining")]))
      "category" :=
  category_passed_through_unvalidated "fid" "\x7b\"category\":\"Food & Dining\"\x7d"
    (Json.obj [("category", Json.str "Food & Dining")])
    [("category", Json.str "Food & Dining"), ("id", Json.str "fid")] rfl rfl

/-- C5 counterexample: `{}` is parseable JSON with none of the required
fields, yet `parseEmailContent` accepts it and returns a partially
populated transaction (only the stamped `id` is present). -/
theorem partial_transaction_accepted_counterexample :
    (parseEmailContentModel "x" (GenResult.ok (some "{}"))).map
        hasTransactionFields = some false ∧
    (parseEmailContentModel "x" (GenResult.ok (some "{}"))).map
        (fun fs => getStrField fs "id") = some (some "x") := by
  constructor <;> rfl

/-- C5 (amended): `parseEmailContent` fails on a thrown provider/network
error, a missing/empty response text, and malformed JSON; on parseable JSON
it accepts the parsed object's fields plus a stamped fresh `id` without
checking field presence — completeness of the result is exactly
completeness of the model's response. -/
theorem extraction_none_or_parsed_object (freshId : String) (res : GenResult) :
    parseEmailContentModel freshId GenResult.fail = none ∧
    parseEmailContentModel freshId (GenResult.ok none) = none ∧
    (∀ txt, Json.parse (trimS txt) = none →
      parseEmailContentModel freshId (GenResult.ok (some txt)) = none) ∧
    (∀ fields, parseEmailContentModel freshId res = some fields →
      ∃ txt j, res = GenResult.ok (some txt) ∧
        Json.parse (trimS txt) = some j ∧
        fields = setIdField (spreadFields j) (Json.str freshId) ∧
        hasTransactionFields fields = hasTransactionFields (spreadFields j)) := by
  refine ⟨rfl, rfl, ?_, ?_⟩
  · intro txt hpn
    unfold parseEmailContentModel
    by_cases he : trimS txt = ""
    · simp [he]
    · simp [he, hpn]
  · intro fields hr
    cases res with
    | fail => exact absurd hr (by simp [parseEmailContentModel])
    | ok t =>
      cases t with
      | none => exact absurd hr (by simp [parseEmailContentModel])
      | some txt =>
        refine ⟨txt, ?_⟩
        unfold parseEmailContentModel at hr
        by_cases he : trimS txt = ""
        · simp [he] at hr
        · simp only [he, if_neg, if_false] at hr
          cases hp : Json.parse (trimS txt) with
          | none => rw [hp] at hr; exact absurd hr (by simp)
          | some j =>
            rw [hp] at hr
            have hf : fields = setIdField (spreadFields j) (Json.str freshId) :=
              (Option.some.injEq _ _).mp hr.symm
            exact ⟨j, rfl, rfl, hf,
              by rw [hf]; exact hasTransactionFields_setIdField _ _⟩

/-- Witness for C5 (amended): the malformed-JSON clause at a concrete
non-JSON response text. -/
theorem extraction_none_or_parsed_object_witness :
    parseEmailContentModel "w" (GenResult.ok (some "not json")) = none :=
  (extraction_none_or_parsed_object "w" GenResult.fail).2.2.1 "not json" rfl

/-! ## Base64url round-trip (towards C7) -/

theorem sextetChar_props : ∀ k, k < 64 → b64Index (sextetChar k) = some k ∧
    isB64Ws (sextetChar k) = false ∧ sextetChar k ≠ '=' ∧
    urlToStd (stdToUrl (sextetChar k)) = sextetChar k := by decide

theorem b64Index_sextetChar (k : Nat) (hk : k < 64) :
    b64Index (sextetChar k) = some k := (sextetChar_props k hk).1

/-- Every character emitted by the standard encoder is an alphabet
character. -/
theorem b64EncodeStd_chars : ∀ (bytes : List Nat), (∀ b ∈ bytes, b < 256) →
    ∀ c ∈ b64EncodeStd bytes, ∃ k, k < 64 ∧ c = sextetChar k
  | [], _, c, hc => by simp [b64EncodeStd] at hc
  | [a], hb, c, hc => by
    have ha : a < 256 := hb a (by simp)
    simp only [b64EncodeStd, List.mem_cons, List.not_mem_nil, or_false] at hc
    rcases hc with rfl | rfl
    · exact ⟨a / 4, by omega, rfl⟩
    · exact ⟨(a % 4) * 16, by omega, rfl⟩
  | [a, b], hb, c, hc => by
    have ha : a < 256 := hb a (by simp)
    have hbb : b < 256 := hb b (by simp)
    simp only [b64EncodeStd, List.mem_cons, List.not_mem_nil, or_false] at hc
    rcases hc with rfl | rfl | rfl
    · exact ⟨a / 4, by omega, rfl⟩
    · exact ⟨(a % 4) * 16 + b / 16, by omega, rfl⟩
    · exact ⟨(b % 16) * 4, by omega, rfl⟩
  | a :: b :: d :: rest, hb, c, hc => by
    have ha : a < 256 := hb a (by simp)
    have hbb : b < 256 := hb b (by simp)
    have hd : d < 256 := hb d (by simp)
    simp only [b64EncodeStd, List.mem_cons] at hc
    rcases hc with rfl | rfl | rfl | rfl | hc
    · exact ⟨a / 4, by omega, rfl⟩
    · exact ⟨(a % 4) * 16 + b / 16, by omega, rfl⟩
    · exact ⟨(b % 16) * 4 + d / 64, by omega, rfl⟩
    · exact ⟨d % 64, by omega, rfl⟩
    · exact b64EncodeStd_chars rest (fun x hx => hb x (by simp [hx])) c hc

theorem b64EncodeStd_no_ws (bytes : List Nat) (hb : ∀ b ∈ bytes, b < 256) :
    (b64EncodeStd bytes).filter (fun c => !(isB64Ws c)) = b64EncodeStd bytes := by
  apply List.filter_eq_self.mpr
  intro c hc
  rcases b64EncodeStd_chars bytes hb c hc with ⟨k, hk, rfl⟩
  simp [(sextetChar_props k hk).2.1]

theorem b64EncodeStd_no_pad (bytes : List Nat) (hb : ∀ b ∈ bytes, b < 256) :
    ('=' : Char) ∉ b64EncodeStd bytes := by
  intro hmem
  rcases b64EncodeStd_chars bytes hb _ hmem with ⟨k, hk, heq⟩
  exact (sextetChar_props k hk).2.2.1 heq.symm

theorem stripPad_eq_self (l : List Char) (h : ('=' : Char) ∉ l) :
    stripPad l = l := by
  unfold stripPad
  split
  · split
    · next heq =>
      exact absurd (by rw [← List.mem_reverse, heq]; simp) h
    · next heq =>
      exact absurd (by rw [← List.mem_reverse, heq]; simp) h
    · rfl
  · rfl

theorem b64EncodeStd_length_mod : ∀ (bytes : List Nat),
    (b64EncodeStd bytes).length % 4 ≠ 1
  | [] => by simp [b64EncodeStd]
  | [_] => by simp [b64EncodeStd]
  | [_, _] => by simp [b64EncodeStd]
  | _ :: _ :: _ :: rest => by
    have ih := b64EncodeStd_length_mod rest
    simp only [b64EncodeStd, List.length_cons]
    omega

/-- Chunkwise decoding inverts the standard encoder. -/
theorem atobChunks_encode : ∀ (bytes : List Nat), (∀ b ∈ bytes, b < 256) →
    atobChunks (b64EncodeStd bytes) = some bytes
  | [], _ => rfl
  | [a], hb => by
    have ha : a < 256 := hb a (by simp)
    simp only [b64EncodeStd, atobChunks,
      b64Index_sextetChar (a / 4) (by omega),
      b64Index_sextetChar ((a % 4) * 16) (by omega)]
    have : a / 4 * 4 + (a % 4) * 16 / 16 = a := by omega
    rw [this]
  | [a, b], hb => by
    have ha : a < 256 := hb a (by simp)
    have hbb : b < 256 := hb b (by simp)
    simp only [b64EncodeStd, atobChunks,
      b64Index_sextetChar (a / 4) (by omega),
      b64Index_sextetChar ((a % 4) * 16 + b / 16) (by omega),
      b64Index_sextetChar ((b % 16) * 4) (by omega)]
    have h1 : a / 4 * 4 + ((a % 4) * 16 + b / 16) / 16 = a := by omega
    have h2 : ((a % 4) * 16 + b / 16) % 16 * 16 + (b % 16) * 4 / 4 = b := by omega
    rw [h1, h2]
  | a :: b :: d :: rest, hb => by
    have ha : a < 256 := hb a (by simp)
    have hbb : b < 256 := hb b (by simp)
    have hd : d < 256 := hb d (by simp)
    have ih := atobChunks_encode rest (fun x hx => hb x (by simp [hx]))
    simp only [b64EncodeStd, atobChunks,
      b64Index_sextetChar (a / 4) (by omega),
      b64Index_sextetChar ((a % 4) * 16 + b / 16) (by omega),
      b64Index_sextetChar ((b % 16) * 4 + d / 64) (by omega),
      b64Index_sextetChar (d % 64) (by omega), ih]
    have h1 : a / 4 * 4 + ((a % 4) * 16 + b / 16) / 16 = a := by omega
    have h2 : ((a % 4) * 16 + b / 16) % 16 * 16 + ((b % 16) * 4 + d / 64) / 4 = b := by
      omega
    have h3 : ((b % 16) * 4 + d / 64) % 4 * 64 + d % 64 = d := by omega
    rw [h1, h2, h3]

/-- `atob`, after the URL-safe substitutions are reversed, inverts the
standard encoder. -/
theorem atobModel_encode (bytes : List Nat) (hb : ∀ b ∈ bytes, b < 256) :
    atobModel (b64EncodeStd bytes) = some bytes := by
  unfold atobModel
  rw [b64EncodeStd_no_ws bytes hb]
  show (if (stripPad (b64EncodeStd bytes)).length % 4 = 1 then none
        else atobChunks (stripPad (b64EncodeStd bytes))) = some bytes
  rw [stripPad_eq_self _ (b64EncodeStd_no_pad bytes hb),
    if_neg (b64EncodeStd_length_mod bytes)]
  exact atobChunks_encode bytes hb

/-- Reversing the URL-safe substitutions recovers the standard encoding. -/
theorem urlToStd_b64UrlEncode (bytes : List Nat) (hb : ∀ b ∈ bytes, b < 256) :
    (b64UrlEncode bytes).map urlToStd = b64EncodeStd bytes := by
  unfold b64UrlEncode
  rw [List.map_map]
  have : ∀ c ∈ b64EncodeStd bytes, (urlToStd ∘ stdToUrl) c = id c := by
    intro c hc
    rcases b64EncodeStd_chars bytes hb c hc with ⟨k, hk, rfl⟩
    exact (sextetChar_props k hk).2.2.2
  rw [List.map_congr_left this, List.map_id]

theorem char_valid_ranges (c : Char) :
    c.toNat < 0xD800 ∨ (0xDFFF < c.toNat ∧ c.toNat < 0x110000) := by
  have hv : Nat.isValidChar c.toNat := c.valid
  unfold Nat.isValidChar at hv
  exact hv

theorem utf8DecodeReplace_nil : utf8DecodeReplace [] = [] := by
  rw [utf8DecodeReplace]

theorem utf8DecodeReplace_cons (b : Nat) (bs : List Nat) :
    utf8DecodeReplace (b :: bs) =
      (utf8Step b bs).1 :: utf8DecodeReplace (bs.drop (utf8Step b bs).2) := by
  rw [utf8DecodeReplace]

theorem utf8_step_lemma (c : Char) (rest : List Nat) :
    utf8DecodeReplace (utf8EncodeChar c ++ rest) = c :: utf8DecodeReplace rest := by
  have hv := char_valid_ranges c
  by_cases h1 : c.toNat < 0x80
  · rw [show utf8EncodeChar c = [c.toNat] from by
      unfold utf8EncodeChar; rw [if_pos h1]]
    rw [List.cons_append, List.nil_append, utf8DecodeReplace_cons]
    rw [show utf8Step c.toNat rest = (Char.ofNat c.toNat, 0) from by
      unfold utf8Step; rw [if_pos h1]]
    rw [Char.ofNat_toNat]
    rfl
  · by_cases h2 : c.toNat < 0x800
    · rw [show utf8EncodeChar c = [0xC0 + c.toNat / 64, 0x80 + c.toNat % 64] from by
        unfold utf8EncodeChar; rw [if_neg h1, if_pos h2]]
      rw [List.cons_append, List.cons_append, List.nil_append, utf8DecodeReplace_cons]
      rw [show utf8Step (0xC0 + c.toNat / 64) ((0x80 + c.toNat % 64) :: rest) =
          (Char.ofNat c.toNat, 1) from by
        unfold utf8Step
        rw [if_neg (by omega), if_pos (by omega)]
        dsimp only
        rw [if_pos (by omega)]
        rw [show (0xC0 + c.toNat / 64 - 0xC0) * 64 + (0x80 + c.toNat % 64 - 0x80)
            = c.toNat from by omega]]
      rw [Char.ofNat_toNat]
      rfl
    · by_cases h3 : c.toNat < 0x10000
      · rw [show utf8EncodeChar c =
            [0xE0 + c.toNat / 4096, 0x80 + (c.toNat / 64) % 64, 0x80 + c.toNat % 64]
            from by unfold utf8EncodeChar; rw [if_neg h1, if_neg h2, if_pos h3]]
        rw [List.cons_append, List.cons_append, List.cons_append, List.nil_append,
          utf8DecodeReplace_cons]
        rw [show utf8Step (0xE0 + c.toNat / 4096)
            ((0x80 + (c.toNat / 64) % 64) :: (0x80 + c.toNat % 64) :: rest) =
            (Char.ofNat c.toNat, 2) from by
          unfold utf8Step
          rw [if_neg (by omega), if_neg (by omega), if_pos (by omega)]
          dsimp only
          rw [if_pos (by
            refine ⟨⟨?_, ?_⟩, by omega, by omega⟩ <;>
              · simp only [cont2lo, cont2hi]
                split <;> omega)]
          rw [show (0xE0 + c.toNat / 4096 - 0xE0) * 4096 +
              (0x80 + (c.toNat / 64) % 64 - 0x80) * 64 + (0x80 + c.toNat % 64 - 0x80)
              = c.toNat from by omega]]
        rw [Char.ofNat_toNat]
        rfl
      · rw [show utf8EncodeChar c =
            [0xF0 + c.toNat / 262144, 0x80 + (c.toNat / 4096) % 64,
             0x80 + (c.toNat / 64) % 64, 0x80 + c.toNat % 64]
            from by unfold utf8EncodeChar; rw [if_neg h1, if_neg h2, if_neg h3]]
        rw [List.cons_append, List.cons_append, List.cons_append, List.cons_append,
          List.nil_append, utf8DecodeReplace_cons]
        rw [show utf8Step (0xF0 + c.toNat / 262144)
            ((0x80 + (c.toNat / 4096) % 64) :: (0x80 + (c.toNat / 64) % 64) ::
             (0x80 + c.toNat % 64) :: rest) =
            (Char.ofNat c.toNat, 3) from by
          unfold utf8Step
          rw [if_neg (by omega), if_neg (by omega), if_neg (by omega),
            if_pos (by omega)]
          dsimp only
          rw [if_pos (by
            refine ⟨⟨?_, ?_⟩, ⟨by omega, by omega⟩, by omega, by omega⟩ <;>
              · simp only [cont3lo, cont3hi]
                split <;> omega)]
          rw [show (0xF0 + c.toNat / 262144 - 0xF0) * 262144 +
              (0x80 + (c.toNat / 4096) % 64 - 0x80) * 4096 +
              (0x80 + (c.toNat / 64) % 64 - 0x80) * 64 + (0x80 + c.toNat % 64 - 0x80)
              = c.toNat from by omega]]
        rw [Char.ofNat_toNat]
        rfl


theorem utf8EncodeChar_lt256 (c : Char) : ∀ b ∈ utf8EncodeChar c, b < 256 := by
  intro b hb
  have hv := char_valid_ranges c
  unfold utf8EncodeChar at hb
  dsimp only at hb
  split_ifs at hb <;> simp only [List.mem_cons, List.not_mem_nil, or_false] at hb
  · omega
  · rcases hb with rfl | rfl <;> omega
  · rcases hb with rfl | rfl | rfl <;> omega
  · rcases hb with rfl | rfl | rfl | rfl <;> omega

theorem utf8Encode_lt256 (cs : List Char) : ∀ b ∈ utf8Encode cs, b < 256 := by
  induction cs with
  | nil => intro b hb; simp [utf8Encode] at hb
  | cons c rest ih =>
    intro b hb
    rcases List.mem_append.mp (by simpa [utf8Encode] using hb) with h | h
    · exact utf8EncodeChar_lt256 c b h
    · exact ih b h

/-- The replacement decoder inverts UTF-8 encoding on every character
list. -/
theorem utf8_roundtrip (cs : List Char) :
    utf8DecodeReplace (utf8Encode cs) = cs := by
  induction cs with
  | nil =>
    rw [show utf8Encode [] = ([] : List Nat) from rfl, utf8DecodeReplace_nil]
  | cons c rest ih =>
    rw [show utf8Encode (c :: rest) = utf8EncodeChar c ++ utf8Encode rest from rfl]
    rw [utf8_step_lemma, ih]

/-- C7: decoding a URL-safe unpadded base64 encoding of the UTF-8 bytes of
any string through the client decoder yields the original string:
`safeDecode` reverses the `-`/`_` substitutions, base64-decodes, and
UTF-8-decodes back to the source text. -/
theorem base64url_roundtrip (s : String) :
    safeDecodeS (String.mk (b64UrlEncode (utf8Encode s.data))) = s := by
  have hb := utf8Encode_lt256 s.data
  unfold safeDecodeS safeDecodeL
  rw [show (String.mk (b64UrlEncode (utf8Encode s.data))).data
      = b64UrlEncode (utf8Encode s.data) from rfl]
  rw [urlToStd_b64UrlEncode _ hb, atobModel_encode _ hb]
  show String.mk (utf8DecodeReplace (utf8Encode s.data)) = s
  rw [utf8_roundtrip]

end GmailExpenses
